import Mathlib

/-!
Verification of the go-gas estimation engine against its specification.

The Go sources are shallowly embedded: 256-bit unsigned integers
(holiman/uint256) become natural numbers with explicit reduction
modulo 2 ^ 256 at every operation that wraps, Go pointers become
Option, fallible code returns Except or Option, and float64 values
are modelled exactly as dyadic rationals (an integer mantissa times a
power of two) with IEEE-754 round-to-nearest-even applied after each
multiplication.  Wall-clock timestamp fields, which the specification
excludes from determinism claims, are omitted from the records.
-/

set_option maxRecDepth 4000

namespace GoGas

/-! ### 256-bit and 64-bit machine arithmetic (holiman/uint256 semantics) -/

/-- Modulus of the Go uint256 type. -/
def U256 : ℕ := 2 ^ 256

/-- Modulus of the Go uint64 type. -/
def U64 : ℕ := 2 ^ 64

/-- uint256 addition: wraps modulo 2 ^ 256. -/
def add256 (a b : ℕ) : ℕ := (a + b) % U256

/-- uint256 multiplication: wraps modulo 2 ^ 256. -/
def mul256 (a b : ℕ) : ℕ := (a * b) % U256

/-- uint256 subtraction: wraps modulo 2 ^ 256 (holiman Sub has no borrow check). -/
def sub256 (a b : ℕ) : ℕ := (a + U256 - b % U256) % U256

/-- uint256 division: floor division, and division by zero yields zero,
exactly as holiman uint256 Div specifies. -/
def div256 (a b : ℕ) : ℕ := if b = 0 then 0 else a / b

/-- uint64 subtraction: wraps modulo 2 ^ 64. -/
def sub64 (a b : ℕ) : ℕ := (a + U64 - b % U64) % U64

/-! ### Exact model of the float64 values used by the source

Every float64 value occurring in the estimator is a normal-range IEEE-754
number; it is modelled as the exact dyadic rational it denotes, written as
an integer mantissa times 2 to an integer exponent.  Multiplication rounds
the product back to 53 significant bits with round-to-nearest, ties to
even, which is exactly the IEEE-754 behaviour on normal-range doubles. -/

/-- Bit length of a natural number, by structural recursion on a fuel
argument so that the kernel can evaluate it. -/
def bitLenAux : ℕ → ℕ → ℕ
  | 0, _ => 0
  | f + 1, n => if n = 0 then 0 else 1 + bitLenAux f (n / 2)

/-- Bit length of a natural number: 0 for 0, and otherwise the position of
the highest set bit plus one. -/
def bitLen (n : ℕ) : ℕ := bitLenAux n n

/-- A float64 value, represented exactly: the value is m * 2 ^ e. -/
structure F64 where
  m : ℤ
  e : ℤ
  deriving DecidableEq

/-- Round a dyadic value m * 2 ^ e to 53 significant bits, round to
nearest with ties to even.  Values already within 53 bits are returned
unchanged.  This is IEEE-754 double rounding for normal-range results. -/
def F64.normalize (m : ℤ) (e : ℤ) : F64 :=
  if m = 0 then ⟨0, 0⟩ else
  let n := m.natAbs
  let L := bitLen n
  if L ≤ 53 then ⟨m, e⟩ else
  let s := L - 53
  let q := n / 2 ^ s
  let r := n % 2 ^ s
  let half := 2 ^ (s - 1)
  let q2 := if r < half then q else if half < r then q + 1
    else if q % 2 = 0 then q else q + 1
  ⟨if m < 0 then -(q2 : ℤ) else (q2 : ℤ), e + s⟩

/-- float64 multiplication: exact product, rounded to 53 bits. -/
def F64.mul (a b : F64) : F64 := F64.normalize (a.m * b.m) (a.e + b.e)

/-- Conversion of a natural number into float64 (rounds above 2 ^ 53). -/
def F64.ofNat (n : ℕ) : F64 := F64.normalize (n : ℤ) 0

/-- The Go comparison f > 0 on a float64 value. -/
def F64.isPos (a : F64) : Bool := 0 < a.m

/-- The Go conversion uint64(f): truncation toward zero.  The source only
converts values in [0, 100], far below the uint64 range. -/
def F64.toUInt64 (a : F64) : ℕ :=
  (if a.e < 0 then a.m.toNat / 2 ^ (-a.e).toNat else a.m.toNat * 2 ^ a.e.toNat) % U64

/-- The Go conversion int(f): truncation toward zero, used only on the
nonnegative percentile index. -/
def F64.toIntTrunc (a : F64) : ℕ :=
  if a.e < 0 then a.m.toNat / 2 ^ (-a.e).toNat else a.m.toNat * 2 ^ a.e.toNat

/-- The float64 literal 0.99 (exact binary64 value). -/
def f0_99 : F64 := ⟨8917127262193582, -53⟩

/-- The float64 literal 0.90 (exact binary64 value). -/
def f0_90 : F64 := ⟨8106479329266893, -53⟩

/-- The float64 literal 0.50 (exact binary64 value). -/
def f0_50 : F64 := ⟨1, -1⟩

/-- The float64 literal 0.25 (exact binary64 value). -/
def f0_25 : F64 := ⟨1, -2⟩

/-- The float64 literal 0.3 (exact binary64 value), the default
historical weight. -/
def f0_3 : F64 := ⟨5404319552844595, -54⟩

/-- The float64 literal 0.1 (exact binary64 value), the default
smoothing factor. -/
def f0_1 : F64 := ⟨7205759403792794, -56⟩

/-- The float64 literal 100. -/
def f100 : F64 := ⟨100, 0⟩

/-! ### pkg/eth: blocks and transactions -/

/-- eth.Transaction (src/pkg/eth/types.go).  Only the gas-relevant fields
are kept; Hash, From, To, Nonce and GasLimit are not read by the core.
Pointer-valued fee fields become Option.  TxType is the field named Type
in Go (0 legacy, 2 EIP-1559). -/
structure Transaction where
  GasPrice : Option ℕ
  MaxFeePerGas : Option ℕ
  MaxPriorityFeePerGas : Option ℕ
  TxType : ℕ
  deriving DecidableEq

/-- Transaction.IsEIP1559 from src/pkg/eth/types.go. -/
def Transaction.IsEIP1559 (t : Transaction) : Bool := t.TxType = 2

/-- Transaction.EffectivePriorityFee from src/pkg/eth/types.go, lines
48-75, embedded exactly: the nil base fee returns 0; the EIP-1559 branch
computes MaxFeePerGas - baseFee with the wrapping uint256 Sub and has no
underflow guard; the legacy branch checks GasPrice < baseFee first. -/
def Transaction.EffectivePriorityFee (t : Transaction) (baseFee : Option ℕ) : ℕ :=
  match baseFee with
  | none => 0
  | some b =>
    if t.TxType = 2 ∧ t.MaxFeePerGas.isSome ∧ t.MaxPriorityFeePerGas.isSome then
      let maxMinusBase := sub256 (t.MaxFeePerGas.getD 0) b
      if t.MaxPriorityFeePerGas.getD 0 < maxMinusBase then t.MaxPriorityFeePerGas.getD 0
      else maxMinusBase
    else
      match t.GasPrice with
      | none => 0
      | some g => if g < b then 0 else g - b

/-- eth.Block (src/pkg/eth/types.go).  Hash, ParentHash and Timestamp are
not used by the claims and are omitted. -/
structure Block where
  Number : ℕ
  BaseFee : Option ℕ
  GasUsed : ℕ
  GasLimit : ℕ
  Transactions : List Transaction
  deriving DecidableEq, Inhabited

/-! ### estimator.TxData and its effective priority fee (mempool path) -/

/-- estimator.TxData (src/unnamed/part_003, lines 490-495). -/
structure TxData where
  MaxPriorityFeePerGas : Option ℕ
  MaxFeePerGas : Option ℕ
  GasPrice : Option ℕ
  IsEIP1559 : Bool
  deriving DecidableEq

/-- TxData.EffectivePriorityFee from src/unnamed/part_003, lines 498-529,
embedded exactly: a nil or zero base fee falls back to the priority fee,
the gas price, or 0; the EIP-1559 branch guards MaxFeePerGas < baseFee
before subtracting; the legacy branch guards GasPrice < baseFee. -/
def TxData.EffectivePriorityFee (t : TxData) (baseFee : Option ℕ) : ℕ :=
  if baseFee = none ∨ baseFee.getD 0 = 0 then
    if t.IsEIP1559 ∧ t.MaxPriorityFeePerGas.isSome then t.MaxPriorityFeePerGas.getD 0
    else
      match t.GasPrice with
      | some g => g
      | none => 0
  else
    let b := baseFee.getD 0
    if t.IsEIP1559 ∧ t.MaxFeePerGas.isSome ∧ t.MaxPriorityFeePerGas.isSome then
      if t.MaxFeePerGas.getD 0 < b then 0
      else
        let maxMinusBase := t.MaxFeePerGas.getD 0 - b
        if t.MaxPriorityFeePerGas.getD 0 < maxMinusBase then t.MaxPriorityFeePerGas.getD 0
        else maxMinusBase
    else
      match t.GasPrice with
      | some g => if g < b then 0 else g - b
      | none => 0

/-- Modelled from the spec: the three-branch effective-priority-fee
definition of section 3 of the specification, stated over the raw fee
fields.  Used as the reference the two implementations are compared
with. -/
def claimEffectivePriorityFee (isEIP : Bool) (maxFee prio gasPrice : Option ℕ)
    (baseFee : Option ℕ) : ℕ :=
  let fallback :=
    if isEIP ∧ prio.isSome then prio.getD 0
    else match gasPrice with
      | some g => g
      | none => 0
  match baseFee with
  | none => fallback
  | some b =>
    if b = 0 then fallback
    else if isEIP ∧ maxFee.isSome ∧ prio.isSome then
      if maxFee.getD 0 < b then 0 else min (prio.getD 0) (maxFee.getD 0 - b)
    else
      match gasPrice with
      | some g => if g < b then 0 else g - b
      | none => 0

/-- The mempool-path implementation TxData.EffectivePriorityFee agrees
with the three-branch definition of the specification on every input. -/
theorem TxData_matches_claim (t : TxData) (baseFee : Option ℕ) :
    t.EffectivePriorityFee baseFee =
      claimEffectivePriorityFee t.IsEIP1559 t.MaxFeePerGas t.MaxPriorityFeePerGas
        t.GasPrice baseFee := by
  rcases t with ⟨prio, maxFee, gasPrice, isE⟩
  rcases baseFee with _ | b
  · rfl
  · rcases Nat.eq_zero_or_pos b with hb | hb
    · subst hb
      rcases prio with _ | p <;> rcases maxFee with _ | mf <;>
        rcases gasPrice with _ | g <;> rcases isE <;>
        simp [TxData.EffectivePriorityFee, claimEffectivePriorityFee]
    · rcases prio with _ | p <;> rcases maxFee with _ | mf <;>
        rcases gasPrice with _ | g <;> rcases isE <;>
        simp [TxData.EffectivePriorityFee, claimEffectivePriorityFee,
          Nat.pos_iff_ne_zero.mp hb, min_def] <;>
        split_ifs <;> omega

/-- C1.  The claim requires both implementations to satisfy the
three-branch effective-priority-fee definition, but the block-ingest
implementation eth.Transaction.EffectivePriorityFee violates it: for an
EIP-1559 transaction with max fee 40 and priority fee 10 against base
fee 50, the wrapping subtraction (with no max_fee < B guard) makes the
code return 10, while the definition - and the repository's own test
TestTransaction_EffectivePriorityFee, case "EIP-1559: MaxFee < BaseFee" -
requires 0.  The mempool-path TxData implementation returns the required
0 on the same fee fields. -/
theorem C1_eth_effective_priority_fee_bug :
    Transaction.EffectivePriorityFee ⟨none, some 40, some 10, 2⟩ (some 50) = 10 ∧
    claimEffectivePriorityFee true (some 40) (some 10) none (some 50) = 0 ∧
    TxData.EffectivePriorityFee ⟨some 10, some 40, none, true⟩ (some 50) = 0 := by
  refine ⟨?_, rfl, rfl⟩
  show (if (10 : ℕ) < sub256 40 50 then 10 else sub256 40 50) = 10
  norm_num [sub256, U256]

/-! ### estimator.BlockData and base-fee prediction -/

/-- estimator.BlockData (src/unnamed/part_003, lines 472-479); the
Timestamp field is not read by any claim and is omitted. -/
structure BlockData where
  Number : ℕ
  BaseFee : Option ℕ
  GasUsed : ℕ
  GasLimit : ℕ
  PriorityFees : List ℕ
  deriving DecidableEq

/-- HybridStrategy.predictBaseFee from src/unnamed/part_003, lines
113-145: the EIP-1559 update rule applied to the current block, with
uint256 wrapping multiplication and addition, floor division (division
by zero yielding zero, as uint256 Div does), and an explicit underflow
guard on the decreasing branch.  The receiver carries no state used
here, so the function is embedded without it. -/
def predictBaseFee (block : BlockData) : ℕ :=
  match block.BaseFee with
  | none => 1000000000
  | some bf =>
    let gasTarget := block.GasLimit / 2
    if block.GasUsed = gasTarget then bf
    else if gasTarget < block.GasUsed then
      let delta := div256 (div256 (mul256 bf (block.GasUsed - gasTarget)) gasTarget) 8
      add256 bf delta
    else
      let delta := div256 (div256 (mul256 bf (gasTarget - block.GasUsed)) gasTarget) 8
      if bf < delta then 0 else bf - delta

/-- C3.  The predicted next base fee follows the specification's
three-branch formula: with B the base fee (1 gwei when absent), G the
gas used and T the gas target (half the gas limit, integer division),
the result is B at target, B plus B*(G-T)/T/8 above target and B minus
B*(T-G)/T/8 below target, saturating at zero, with every operation at
256-bit precision (multiplication and addition reduce modulo 2^256,
divisions are floor divisions). -/
theorem C3_predict_base_fee_formula (block : BlockData) :
    predictBaseFee block =
      match block.BaseFee with
      | none => 1000000000
      | some B =>
        let G := block.GasUsed
        let T := block.GasLimit / 2
        if G = T then B
        else if T < G then (B + B * (G - T) % 2 ^ 256 / T / 8) % 2 ^ 256
        else B - B * (T - G) % 2 ^ 256 / T / 8 := by
  rcases block with ⟨n, bf, G, L, fees⟩
  rcases bf with _ | B
  · rfl
  · simp only [predictBaseFee, div256, add256, mul256, U256]
    rcases Nat.eq_zero_or_pos (L / 2) with hT | hT
    · simp only [hT, Nat.div_zero]
      split_ifs <;> omega
    · have h8 : (8 : ℕ) ≠ 0 := by omega
      simp only [if_neg (by omega : ¬ L / 2 = 0), if_neg h8]
      split_ifs <;> omega

/-- The delta computed by predictBaseFee is at most B / 8 whenever the
gas used does not exceed twice the gas target. -/
theorem predict_delta_le (B x T : ℕ) (hx : x ≤ T) :
    div256 (div256 (mul256 B x) T) 8 ≤ B / 8 := by
  rcases Nat.eq_zero_or_pos T with hT | hT
  · simp [div256, hT]
  · have h1 : mul256 B x ≤ B * T := le_trans (Nat.mod_le _ _) (by
      exact Nat.mul_le_mul_left B hx)
    have h2 : div256 (mul256 B x) T ≤ B := by
      simp only [div256, if_neg (by omega : ¬ T = 0)]
      calc mul256 B x / T ≤ B * T / T := Nat.div_le_div_right h1
        _ = B := Nat.mul_div_cancel B hT
    simp only [div256, if_neg (by omega : ¬ (8 : ℕ) = 0)]
    exact Nat.div_le_div_right h2

/-- C7 (amended).  For a block whose gas used is at most twice the gas
target (in particular any block with an even gas limit and gas used at
most the gas limit) and whose base fee B satisfies B + B/8 < 2^256, the
predicted base fee stays within B / 8 of B.  Without the gas bound the
claim fails: see the counterexample. -/
theorem C7_predicted_base_fee_within_eighth (block : BlockData) (B : ℕ)
    (hB : block.BaseFee = some B)
    (hG : block.GasUsed ≤ 2 * (block.GasLimit / 2))
    (hwrap : B + B / 8 < 2 ^ 256) :
    B - B / 8 ≤ predictBaseFee block ∧ predictBaseFee block ≤ B + B / 8 := by
  rcases block with ⟨n, bf, G, L, fees⟩
  simp only at hB hG
  subst hB
  simp only [predictBaseFee]
  split_ifs with h1 h2 h3
  · omega
  · have hd : div256 (div256 (mul256 B (G - L / 2)) (L / 2)) 8 ≤ B / 8 :=
      predict_delta_le B (G - L / 2) (L / 2) (by omega)
    have : add256 B (div256 (div256 (mul256 B (G - L / 2)) (L / 2)) 8) =
        B + div256 (div256 (mul256 B (G - L / 2)) (L / 2)) 8 := by
      simp only [add256, U256]
      exact Nat.mod_eq_of_lt (by omega)
    rw [this]
    omega
  · have hd : div256 (div256 (mul256 B (L / 2 - G)) (L / 2)) 8 ≤ B / 8 :=
      predict_delta_le B (L / 2 - G) (L / 2) (by omega)
    omega
  · have hd : div256 (div256 (mul256 B (L / 2 - G)) (L / 2)) 8 ≤ B / 8 :=
      predict_delta_le B (L / 2 - G) (L / 2) (by omega)
    omega

/-- C7 counterexample.  A block with gas limit 3 (gas target 1) and gas
used 3 - gas used not exceeding the gas limit - yields a predicted base
fee of 1000 from base fee 800: the change of 200 exceeds the claimed
bound of 800 / 8 = 100, refuting the claim for arbitrary gas used and
gas limit. -/
theorem C7_counterexample :
    predictBaseFee ⟨100, some 800, 3, 3, []⟩ = 1000 ∧
    (⟨100, some 800, 3, 3, []⟩ : BlockData).GasUsed ≤
      (⟨100, some 800, 3, 3, []⟩ : BlockData).GasLimit ∧
    800 / 8 < 1000 - 800 := by
  refine ⟨?_, by decide, by decide⟩
  decide

/-- C7 witness: the full-block scenario of the specification (base fee
1 gwei, gas used 30e6 of limit 30e6) satisfies the amended bound. -/
theorem C7_witness :
    1000000000 - 1000000000 / 8 ≤
      predictBaseFee ⟨100, some 1000000000, 30000000, 30000000, []⟩ ∧
    predictBaseFee ⟨100, some 1000000000, 30000000, 30000000, []⟩ ≤
      1000000000 + 1000000000 / 8 :=
  C7_predicted_base_fee_within_eighth _ 1000000000 rfl (by decide) (by decide)

/-! ### estimator.History: bounded ring of recent blocks -/

/-- estimator.History (src/pkg/estimator/history.go).  The fixed-size Go
slice of block pointers becomes a list of optional blocks of constant
length; the read-write mutex only serialises access and has no bearing
on the sequential claims. -/
structure History where
  blocks : List (Option Block)
  size : ℕ
  head : ℕ
  count : ℕ
  deriving DecidableEq

/-- NewHistory (history.go lines 23-31): capacities below 1 fall back to
the default 20; the buffer starts empty. -/
def NewHistory (size : ℕ) : History :=
  let sz := if size < 1 then 20 else size
  ⟨List.replicate sz none, sz, 0, 0⟩

/-- History.Push (history.go lines 35-44): write at the cursor, advance
the cursor modulo capacity, grow the count up to capacity. -/
def History.Push (h : History) (block : Block) : History :=
  { h with
    blocks := h.blocks.set h.head (some block)
    head := (h.head + 1) % h.size
    count := if h.count < h.size then h.count + 1 else h.count }

/-- History.Latest (history.go lines 47-57).  Go computes the index
(h.head - 1 + h.size) % h.size in int arithmetic; the value is
nonnegative, and the equal ℕ form below adds the capacity before
subtracting so the subtraction cannot truncate. -/
def History.Latest (h : History) : Option Block :=
  if h.count = 0 then none
  else h.blocks.getD ((h.head + h.size - 1) % h.size) none

/-- History.Snapshot (history.go lines 61-72): walk backwards from the
cursor, newest first.  Go indexes (h.head - 1 - i + h.size) % h.size in
int arithmetic; the equal ℕ form below adds the capacity first. -/
def History.Snapshot (h : History) : List (Option Block) :=
  (List.range h.count).map fun i =>
    h.blocks.getD ((h.head + h.size - 1 - i) % h.size) none

/-- Pushing a list of blocks in order, oldest first. -/
def History.pushAll (h : History) (xs : List Block) : History :=
  xs.foldl History.Push h

/-- Two positions of a ring of size c whose distance is positive and
below c occupy different cells. -/
theorem ring_index_ne {t k c : ℕ} (h1 : t < k) (h2 : k - t < c) :
    t % c ≠ k % c := by
  intro h
  have hd : c ∣ k - t := (Nat.modEq_iff_dvd' (le_of_lt h1)).mp h
  have := Nat.le_of_dvd (by omega) hd
  omega

/-- Ring-buffer characterisation of History: after pushing the blocks of
xs in order into an empty history of capacity c, the capacity fields are
unchanged, the count is min (length xs) c, the cursor is length xs mod c,
and each of the last min (length xs) c pushed blocks sits in the cell
indexed by its push ordinal modulo c. -/
theorem History.pushAll_invariant (c : ℕ) (hc : 1 ≤ c) (xs : List Block) :
    (History.pushAll (NewHistory c) xs).size = c ∧
    (History.pushAll (NewHistory c) xs).blocks.length = c ∧
    (History.pushAll (NewHistory c) xs).count = min xs.length c ∧
    (History.pushAll (NewHistory c) xs).head = xs.length % c ∧
    ∀ t, t < xs.length → xs.length ≤ t + c →
      (History.pushAll (NewHistory c) xs).blocks[t % c]? = some xs[t]? := by
  induction xs using List.reverseRecOn with
  | nil =>
    refine ⟨?_, ?_, ?_, ?_, ?_⟩ <;>
      simp [History.pushAll, NewHistory, if_neg (by omega : ¬ c < 1)] <;> omega
  | append_singleton xs x ih =>
    obtain ⟨hsize, hlen, hcount, hhead, hcells⟩ := ih
    have hPush : History.pushAll (NewHistory c) (xs ++ [x]) =
        (History.pushAll (NewHistory c) xs).Push x := by
      simp [History.pushAll, List.foldl_append]
    rw [hPush]
    refine ⟨hsize, ?_, ?_, ?_, ?_⟩
    · simpa [History.Push] using hlen
    · simp only [History.Push, hcount, hsize, List.length_append, List.length_singleton]
      split_ifs <;> omega
    · simp only [History.Push, hhead, hsize, List.length_append, List.length_singleton]
      exact Nat.mod_add_mod xs.length c 1
    · intro t ht hwin
      simp only [List.length_append, List.length_singleton] at ht hwin
      simp only [History.Push, List.getElem?_set, hlen, hhead]
      rcases Nat.lt_or_ge t xs.length with htx | htx
      · rw [if_neg (ring_index_ne htx (by omega)).symm]
        rw [List.getElem?_append, if_pos htx]
        exact hcells t htx (by omega)
      · have htk : t = xs.length := by omega
        subst htk
        rw [if_pos rfl, if_pos (Nat.mod_lt _ (by omega))]
        rw [List.getElem?_concat_length]

/-- Snapshot of a history filled by pushes: the last min(k, c) pushed
blocks, newest first, and the count never exceeds the capacity. -/
theorem History.snapshot_pushAll (c : ℕ) (hc : 1 ≤ c) (xs : List Block) :
    (History.pushAll (NewHistory c) xs).Snapshot =
      ((xs.drop (xs.length - c)).reverse).map some ∧
    (History.pushAll (NewHistory c) xs).count ≤ c := by
  obtain ⟨hsize, hlen, hcount, hhead, hcells⟩ := History.pushAll_invariant c hc xs
  refine ⟨?_, by omega⟩
  have hn : (xs.drop (xs.length - c)).length = min xs.length c := by
    simp only [List.length_drop]; omega
  apply List.ext_getElem?
  intro j
  rcases Nat.lt_or_ge j (min xs.length c) with hj | hj
  · have hj1 : j < xs.length := by omega
    have hj2 : j < c := by omega
    have hidx : (xs.length % c + c - 1 - j) % c = (xs.length - 1 - j) % c := by
      have h1 : xs.length % c + c - 1 - j = xs.length % c + (c - 1 - j) := by omega
      have h2 : xs.length + (c - 1 - j) = xs.length - 1 - j + c := by omega
      rw [h1, Nat.mod_add_mod, h2, Nat.add_mod_right]
    have hcell := hcells (xs.length - 1 - j) (by omega) (by omega)
    rw [History.Snapshot, List.getElem?_map,
      List.getElem?_range (by omega : j < (History.pushAll (NewHistory c) xs).count)]
    rw [Option.map_some', List.getD_eq_getElem?_getD, hhead, hsize, hidx, hcell]
    rw [List.getElem?_map, List.getElem?_reverse (by omega : j < (xs.drop (xs.length - c)).length)]
    rw [List.getElem?_drop]
    have hix : xs.length - c + ((xs.drop (xs.length - c)).length - 1 - j) =
        xs.length - 1 - j := by omega
    rw [hix]
    cases hx : xs[xs.length - 1 - j]? with
    | none =>
      rw [List.getElem?_eq_none_iff] at hx
      omega
    | some b => rfl
  · rw [History.Snapshot, List.getElem?_map]
    have h1 : (List.range (History.pushAll (NewHistory c) xs).count)[j]? = none := by
      rw [List.getElem?_eq_none_iff, List.length_range]
      omega
    have h2 : (((xs.drop (xs.length - c)).reverse).map some)[j]? = none := by
      rw [List.getElem?_eq_none_iff, List.length_map, List.length_reverse]
      omega
    rw [h1, h2]
    rfl

/-- C8.  After pushing blocks b1 ... bk in order into an empty history
of capacity c, Snapshot returns exactly the last min(k, c) pushed blocks
in newest-first order, and the history never holds more than c entries:
pushing while full drops the oldest. -/
theorem C8_history_ring (c : ℕ) (hc : 1 ≤ c) (xs : List Block) :
    (History.pushAll (NewHistory c) xs).Snapshot =
      ((xs.drop (xs.length - c)).reverse).map some ∧
    (History.pushAll (NewHistory c) xs).count ≤ c :=
  History.snapshot_pushAll c hc xs

/-- C8 witness: the TestHistory scenario.  Capacity 3, pushing blocks
1, 2, 3, 4 leaves the snapshot [4, 3, 2], newest first. -/
theorem C8_witness :
    (History.pushAll (NewHistory 3)
      [⟨1, none, 0, 0, []⟩, ⟨2, none, 0, 0, []⟩,
       ⟨3, none, 0, 0, []⟩, ⟨4, none, 0, 0, []⟩]).Snapshot =
      [some ⟨4, none, 0, 0, []⟩, some ⟨3, none, 0, 0, []⟩,
       some ⟨2, none, 0, 0, []⟩] := by
  rw [(C8_history_ring 3 (by decide) _).1]
  rfl

/-! ### estimator.LocalTxPool: bounded ring of pending transactions -/

/-- estimator.LocalTxPool (src/unnamed/part_004).  As with History, the
fixed-size Go slice of TxData pointers becomes a list of optional
records of constant length. -/
structure LocalTxPool where
  txs : List (Option TxData)
  size : ℕ
  pos : ℕ
  count : ℕ
  deriving DecidableEq

/-- NewLocalTxPool (part_004 lines 20-25): no capacity guard; the buffer
starts empty. -/
def NewLocalTxPool (size : ℕ) : LocalTxPool :=
  ⟨List.replicate size none, size, 0, 0⟩

/-- The TxData record LocalTxPool.Add (part_004 lines 28-45) builds from
a transaction: fee fields are copied according to the EIP-1559 flag,
each guarded by a nil check over a zero-initialised record. -/
def txDataOfTransaction (tx : Transaction) : TxData :=
  let d : TxData := ⟨none, none, none, tx.IsEIP1559⟩
  if tx.IsEIP1559 then
    let d2 := if tx.MaxPriorityFeePerGas.isSome then
      { d with MaxPriorityFeePerGas := tx.MaxPriorityFeePerGas } else d
    if tx.MaxFeePerGas.isSome then
      { d2 with MaxFeePerGas := tx.MaxFeePerGas } else d2
  else
    if tx.GasPrice.isSome then { d with GasPrice := tx.GasPrice } else d

/-- LocalTxPool.Add (part_004 lines 28-55): normalise the transaction,
write at the cursor, advance modulo capacity, grow count up to
capacity. -/
def LocalTxPool.Add (p : LocalTxPool) (tx : Transaction) : LocalTxPool :=
  { p with
    txs := p.txs.set p.pos (some (txDataOfTransaction tx))
    pos := (p.pos + 1) % p.size
    count := if p.count < p.size then p.count + 1 else p.count }

/-- LocalTxPool.Snapshot (part_004 lines 58-71): read oldest first,
skipping nil cells.  Go indexes (p.pos - p.count + i + p.size) % p.size
in int arithmetic; the equal ℕ form below adds the capacity first. -/
def LocalTxPool.Snapshot (p : LocalTxPool) : List TxData :=
  ((List.range p.count).map fun i =>
    p.txs.getD ((p.pos + p.size - p.count + i) % p.size) none).filterMap id

/-- Adding a list of transactions in order, oldest first. -/
def LocalTxPool.addAll (p : LocalTxPool) (xs : List Transaction) : LocalTxPool :=
  xs.foldl LocalTxPool.Add p

/-- Ring-buffer characterisation of LocalTxPool, mirroring the History
invariant: after adding the transactions of xs in order into an empty
pool of capacity c, each of the last min (length xs) c records sits in
the cell indexed by its insertion ordinal modulo c. -/
theorem LocalTxPool.addAll_invariant (c : ℕ) (hc : 1 ≤ c) (xs : List Transaction) :
    (LocalTxPool.addAll (NewLocalTxPool c) xs).size = c ∧
    (LocalTxPool.addAll (NewLocalTxPool c) xs).txs.length = c ∧
    (LocalTxPool.addAll (NewLocalTxPool c) xs).count = min xs.length c ∧
    (LocalTxPool.addAll (NewLocalTxPool c) xs).pos = xs.length % c ∧
    ∀ t, t < xs.length → xs.length ≤ t + c →
      (LocalTxPool.addAll (NewLocalTxPool c) xs).txs[t % c]? =
        some (Option.map txDataOfTransaction xs[t]?) := by
  induction xs using List.reverseRecOn with
  | nil =>
    refine ⟨rfl, by simp [LocalTxPool.addAll, NewLocalTxPool], by
      simp [LocalTxPool.addAll, NewLocalTxPool], rfl, ?_⟩
    intro t ht
    simp at ht
  | append_singleton xs x ih =>
    obtain ⟨hsize, hlen, hcount, hpos, hcells⟩ := ih
    have hAdd : LocalTxPool.addAll (NewLocalTxPool c) (xs ++ [x]) =
        (LocalTxPool.addAll (NewLocalTxPool c) xs).Add x := by
      simp [LocalTxPool.addAll, List.foldl_append]
    rw [hAdd]
    refine ⟨hsize, ?_, ?_, ?_, ?_⟩
    · simpa [LocalTxPool.Add] using hlen
    · simp only [LocalTxPool.Add, hcount, hsize, List.length_append, List.length_singleton]
      split_ifs <;> omega
    · simp only [LocalTxPool.Add, hpos, hsize, List.length_append, List.length_singleton]
      exact Nat.mod_add_mod xs.length c 1
    · intro t ht hwin
      simp only [List.length_append, List.length_singleton] at ht hwin
      simp only [LocalTxPool.Add, List.getElem?_set, hlen, hpos]
      rcases Nat.lt_or_ge t xs.length with htx | htx
      · rw [if_neg (ring_index_ne htx (by omega)).symm]
        rw [List.getElem?_append, if_pos htx]
        exact hcells t htx (by omega)
      · have htk : t = xs.length := by omega
        subst htk
        rw [if_pos rfl, if_pos (Nat.mod_lt _ (by omega))]
        rw [List.getElem?_concat_length]
        rfl

/-- C9.  After adding k transactions into an empty pool of capacity c,
Snapshot returns exactly the last min(k, c) added records in insertion
order, oldest first; eviction is strictly FIFO. -/
theorem C9_pool_ring (c : ℕ) (hc : 1 ≤ c) (xs : List Transaction) :
    (LocalTxPool.addAll (NewLocalTxPool c) xs).Snapshot =
      (xs.drop (xs.length - c)).map txDataOfTransaction ∧
    (LocalTxPool.addAll (NewLocalTxPool c) xs).count ≤ c := by
  obtain ⟨hsize, hlen, hcount, hpos, hcells⟩ := LocalTxPool.addAll_invariant c hc xs
  refine ⟨?_, by omega⟩
  have hmain : ((List.range (LocalTxPool.addAll (NewLocalTxPool c) xs).count).map fun i =>
      (LocalTxPool.addAll (NewLocalTxPool c) xs).txs.getD
        (((LocalTxPool.addAll (NewLocalTxPool c) xs).pos +
          (LocalTxPool.addAll (NewLocalTxPool c) xs).size -
          (LocalTxPool.addAll (NewLocalTxPool c) xs).count + i) %
          (LocalTxPool.addAll (NewLocalTxPool c) xs).size) none) =
      ((xs.drop (xs.length - c)).map txDataOfTransaction).map some := by
    apply List.ext_getElem?
    intro j
    rcases Nat.lt_or_ge j (min xs.length c) with hj | hj
    · have hj1 : j < xs.length := by omega
      have hj2 : j < c := by omega
      rw [List.getElem?_map, List.getElem?_range (by omega :
        j < (LocalTxPool.addAll (NewLocalTxPool c) xs).count)]
      rw [Option.map_some', List.getD_eq_getElem?_getD, hpos, hsize, hcount]
      have hidx : (xs.length % c + c - min xs.length c + j) % c =
          (xs.length - min xs.length c + j) % c := by
        have h1 : xs.length % c + c - min xs.length c + j =
            xs.length % c + (c - min xs.length c + j) := by omega
        have h2 : xs.length + (c - min xs.length c + j) =
            xs.length - min xs.length c + j + c := by omega
        rw [h1, Nat.mod_add_mod, h2, Nat.add_mod_right]
      rw [hidx]
      have hcell := hcells (xs.length - min xs.length c + j) (by omega) (by omega)
      rw [hcell]
      rw [List.getElem?_map, List.getElem?_map, List.getElem?_drop]
      have hix : xs.length - c + j = xs.length - min xs.length c + j := by omega
      rw [hix]
      cases hx : xs[xs.length - min xs.length c + j]? with
      | none =>
        rw [List.getElem?_eq_none_iff] at hx
        omega
      | some tx => rfl
    · rw [List.getElem?_map]
      have h1 : (List.range (LocalTxPool.addAll (NewLocalTxPool c) xs).count)[j]? = none := by
        rw [List.getElem?_eq_none_iff, List.length_range]
        omega
      have h2 : (((xs.drop (xs.length - c)).map txDataOfTransaction).map some)[j]? = none := by
        rw [List.getElem?_eq_none_iff, List.length_map, List.length_map, List.length_drop]
        omega
      rw [h1, h2]
      rfl
  rw [LocalTxPool.Snapshot, hmain, List.filterMap_map, List.filterMap_map]
  show List.filterMap (some ∘ txDataOfTransaction) _ = _
  exact congrFun (List.filterMap_eq_map _) _

/-- C9 witness: Scenario F of the specification.  Capacity 3; adding
EIP-1559 transactions with priorities 10, 20, 30, 40 leaves the snapshot
with priorities 20, 30, 40 in that order. -/
theorem C9_witness :
    (LocalTxPool.addAll (NewLocalTxPool 3)
      [⟨none, some 20, some 10, 2⟩, ⟨none, some 40, some 20, 2⟩,
       ⟨none, some 60, some 30, 2⟩, ⟨none, some 80, some 40, 2⟩]).Snapshot =
      [⟨some 20, some 40, none, true⟩, ⟨some 30, some 60, none, true⟩,
       ⟨some 40, some 80, none, true⟩] := by
  rw [(C9_pool_ring 3 (by decide) _).1]
  rfl

/-! ### estimator.HybridStrategy: the pure estimation pipeline -/

/-- estimator.PriorityEstimate (src/unnamed/part_003, lines 449-459).
Confidence carries the float64 percentile. -/
structure PriorityEstimate where
  MaxPriorityFeePerGas : ℕ
  MaxFeePerGas : ℕ
  Confidence : F64
  deriving DecidableEq

/-- estimator.GasEstimate (part_003, lines 431-446); the wall-clock
Timestamp field, excluded from the determinism contract, is omitted. -/
structure GasEstimate where
  ChainID : ℕ
  BlockNumber : ℕ
  BaseFee : ℕ
  Urgent : PriorityEstimate
  Fast : PriorityEstimate
  Standard : PriorityEstimate
  Slow : PriorityEstimate
  deriving DecidableEq

/-- estimator.CalculatorInput (part_003, lines 463-469). -/
structure CalculatorInput where
  ChainID : ℕ
  CurrentBlock : Option BlockData
  RecentBlocks : List BlockData
  PendingTxs : List TxData
  PreviousEstimate : Option GasEstimate
  deriving DecidableEq

/-- estimator.HybridStrategy (part_003, lines 15-33): clamp bounds in
wei and the two float64 weights. -/
structure HybridStrategy where
  MinPriorityFee : ℕ
  MaxPriorityFee : ℕ
  HistoricalWeight : F64
  SmoothingFactor : F64
  deriving DecidableEq

/-- DefaultStrategy (part_003, lines 36-43): 1 gwei floor, 500 gwei
ceiling, historical weight 0.3, smoothing factor 0.1. -/
def DefaultStrategy : HybridStrategy :=
  ⟨1000000000, 500000000000, f0_3, f0_1⟩

/-- Insertion into an ascending list, the elementary step of the sort
model. -/
def insertAsc (x : ℕ) : List ℕ → List ℕ
  | [] => [x]
  | y :: ys => if x ≤ y then x :: y :: ys else y :: insertAsc x ys

/-- The slices.SortFunc calls in Calculate (part_003, lines 64-72 and
82-90) sort fee vectors ascending by the uint256 Lt comparator.  Over
plain numbers the ascending reordering of a list is unique, so an
insertion sort is an exact model of whatever comparison sort Go uses. -/
def sortFees (l : List ℕ) : List ℕ := l.foldr insertAsc []

/-- HybridStrategy.percentile (part_003, lines 189-197): nearest-rank
selection at int(float64(len-1) * p).  The receiver carries no state
used here.  Go indexes the slice directly; for the percentiles in use
the index is always in range, and the embedding returns 0 in the
impossible out-of-range case. -/
def percentile (values : List ℕ) (p : F64) : Option ℕ :=
  if values.length = 0 then none
  else
    some (values.getD ((F64.mul (F64.ofNat (values.length - 1)) p).toIntTrunc) 0)

/-- HybridStrategy.blend (part_003, lines 199-213): integer blend with
weights summing to 100; the weight is uint64(weightA * 100) computed in
float64, products and sum are wrapping uint256 operations, and the Go
expression 100 - wA is uint64 subtraction. -/
def blend (a b : ℕ) (weightA : F64) : ℕ :=
  let wA := (F64.mul weightA f100).toUInt64
  let wB := sub64 100 wA
  div256 (add256 (mul256 a wA) (mul256 b wB)) 100

/-- HybridStrategy.defaultPriorityFee (part_003, lines 216-227): ramp
between the clamp bounds scaled by uint64(percentile * 100), with the
wrapping uint256 Sub for the difference of the bounds. -/
def defaultPriorityFee (s : HybridStrategy) (p : F64) : ℕ :=
  let diff := sub256 s.MaxPriorityFee s.MinPriorityFee
  let scaled := div256 (mul256 diff ((F64.mul p f100).toUInt64)) 100
  add256 s.MinPriorityFee scaled

/-- HybridStrategy.clamp (part_003, lines 230-238). -/
def clamp (s : HybridStrategy) (fee : ℕ) : ℕ :=
  if fee < s.MinPriorityFee then s.MinPriorityFee
  else if s.MaxPriorityFee < fee then s.MaxPriorityFee
  else fee

/-- HybridStrategy.computeEstimate (part_003, lines 148-185): pick the
percentile from each source, blend when both exist, fall back to the
single source or the default ramp, clamp, and set the max fee to
baseFee * 2 + priorityFee in wrapping uint256 arithmetic. -/
def computeEstimate (s : HybridStrategy) (baseFee : ℕ)
    (historical mempool : List ℕ) (p : F64) : PriorityEstimate :=
  let histP := percentile historical p
  let mempP := percentile mempool p
  let priorityFee :=
    match histP, mempP with
    | some hp, some mp => blend hp mp s.HistoricalWeight
    | none, some mp => mp
    | some hp, none => hp
    | none, none => defaultPriorityFee s p
  let clamped := clamp s priorityFee
  ⟨clamped, add256 (mul256 baseFee 2) clamped, p⟩

/-- HybridStrategy.smoothEstimate (part_003, lines 256-266): blend with
the previous value first, keeping the fresh confidence. -/
def smoothEstimate (current previous : PriorityEstimate) (factor : F64) :
    PriorityEstimate :=
  ⟨blend previous.MaxPriorityFeePerGas current.MaxPriorityFeePerGas factor,
   blend previous.MaxFeePerGas current.MaxFeePerGas factor,
   current.Confidence⟩

/-- HybridStrategy.smooth (part_003, lines 241-254): smooth every tier;
the base fee is not smoothed. -/
def smooth (s : HybridStrategy) (current previous : GasEstimate) : GasEstimate :=
  { current with
    Urgent := smoothEstimate current.Urgent previous.Urgent s.SmoothingFactor
    Fast := smoothEstimate current.Fast previous.Fast s.SmoothingFactor
    Standard := smoothEstimate current.Standard previous.Standard s.SmoothingFactor
    Slow := smoothEstimate current.Slow previous.Slow s.SmoothingFactor }

/-- HybridStrategy.Calculate (part_003, lines 51-110).  The Unit error
is ErrNotReady, the only error the function can produce.  Historical
fees are the concatenation of the per-block vectors of RecentBlocks,
sorted; mempool fees are the nonzero effective priority fees of the
pending records against the predicted base fee, sorted.  Smoothing
applies when a previous estimate exists and the smoothing factor is
positive. -/
def Calculate (s : HybridStrategy) (input : CalculatorInput) :
    Except Unit GasEstimate :=
  match input.CurrentBlock with
  | none => .error ()
  | some currentBlock =>
    let predictedBaseFee := predictBaseFee currentBlock
    let historicalFees := sortFees (input.RecentBlocks.map BlockData.PriorityFees).flatten
    let mempoolFees := sortFees
      ((input.PendingTxs.map fun tx =>
        tx.EffectivePriorityFee (some predictedBaseFee)).filter fun fee => fee ≠ 0)
    let estimate : GasEstimate :=
      { ChainID := input.ChainID
        BlockNumber := currentBlock.Number
        BaseFee := predictedBaseFee
        Urgent := computeEstimate s predictedBaseFee historicalFees mempoolFees f0_99
        Fast := computeEstimate s predictedBaseFee historicalFees mempoolFees f0_90
        Standard := computeEstimate s predictedBaseFee historicalFees mempoolFees f0_50
        Slow := computeEstimate s predictedBaseFee historicalFees mempoolFees f0_25 }
    match input.PreviousEstimate with
    | some previous =>
      if s.SmoothingFactor.isPos then .ok (smooth s estimate previous)
      else .ok estimate
    | none => .ok estimate

/-- Sanity of the float model: the integer weights derived from the
float64 literals are the expected percentages. -/
theorem float_weight_values :
    (F64.mul f0_99 f100).toUInt64 = 99 ∧
    (F64.mul f0_90 f100).toUInt64 = 90 ∧
    (F64.mul f0_50 f100).toUInt64 = 50 ∧
    (F64.mul f0_25 f100).toUInt64 = 25 ∧
    (F64.mul f0_3 f100).toUInt64 = 30 ∧
    (F64.mul f0_1 f100).toUInt64 = 10 := by
  decide

/-- Whether an Except value is a success. -/
def exceptOk {ε α : Type} : Except ε α → Bool
  | .ok _ => true
  | .error _ => false

instance exceptDecidableEq {ε α : Type} [DecidableEq ε] [DecidableEq α] :
    DecidableEq (Except ε α)
  | .error a, .error b =>
    if h : a = b then isTrue (by rw [h])
    else isFalse (by intro hh; cases hh; exact h rfl)
  | .error _, .ok _ => isFalse (by intro h; cases h)
  | .ok _, .error _ => isFalse (by intro h; cases h)
  | .ok a, .ok b =>
    if h : a = b then isTrue (by rw [h])
    else isFalse (by intro hh; cases hh; exact h rfl)

/-- C2 (amended).  For every bundle returned by Calculate: in the
unsmoothed path (no previous bundle, or nonpositive smoothing factor)
every tier satisfies max_fee = base_fee * 2 + max_priority_fee in
wrapping uint256 arithmetic, hence the claimed inequality; in the
smoothed path every tier's max_fee equals the 100-weight integer blend
of the previous bundle's max_fee and the freshly computed (unsmoothed)
max_fee of the same tier.  The claimed inequality itself fails in the
smoothed path: see the counterexample. -/
theorem C2_maxfee_structure (s : HybridStrategy) (input : CalculatorInput)
    (est : GasEstimate) (h : Calculate s input = .ok est) :
    ((input.PreviousEstimate = none ∨ s.SmoothingFactor.isPos = false) →
      est.Urgent.MaxFeePerGas =
        add256 (mul256 est.BaseFee 2) est.Urgent.MaxPriorityFeePerGas ∧
      est.Fast.MaxFeePerGas =
        add256 (mul256 est.BaseFee 2) est.Fast.MaxPriorityFeePerGas ∧
      est.Standard.MaxFeePerGas =
        add256 (mul256 est.BaseFee 2) est.Standard.MaxPriorityFeePerGas ∧
      est.Slow.MaxFeePerGas =
        add256 (mul256 est.BaseFee 2) est.Slow.MaxPriorityFeePerGas) ∧
    (∀ prev cur, input.PreviousEstimate = some prev →
      s.SmoothingFactor.isPos = true →
      Calculate s { input with PreviousEstimate := none } = .ok cur →
      est.Urgent.MaxFeePerGas =
        blend prev.Urgent.MaxFeePerGas cur.Urgent.MaxFeePerGas s.SmoothingFactor ∧
      est.Fast.MaxFeePerGas =
        blend prev.Fast.MaxFeePerGas cur.Fast.MaxFeePerGas s.SmoothingFactor ∧
      est.Standard.MaxFeePerGas =
        blend prev.Standard.MaxFeePerGas cur.Standard.MaxFeePerGas s.SmoothingFactor ∧
      est.Slow.MaxFeePerGas =
        blend prev.Slow.MaxFeePerGas cur.Slow.MaxFeePerGas s.SmoothingFactor) := by
  obtain ⟨cid, cb, recents, pends, prevEst⟩ := input
  cases cb with
  | none => simp [Calculate] at h
  | some b =>
    cases prevEst with
    | none =>
      simp only [Calculate] at h
      rw [Except.ok.injEq] at h
      subst h
      exact ⟨fun _ => ⟨rfl, rfl, rfl, rfl⟩, fun prev cur hps => by simp at hps⟩
    | some prev0 =>
      by_cases hsf : s.SmoothingFactor.isPos
      · simp only [Calculate, hsf, if_true] at h
        rw [Except.ok.injEq] at h
        subst h
        refine ⟨fun hcontra => ?_, fun prev cur hprev hpos hcur => ?_⟩
        · rcases hcontra with hcontra | hcontra
          · simp at hcontra
          · rw [hsf] at hcontra
            exact absurd hcontra (by simp)
        · simp only [Option.some.injEq] at hprev
          subst hprev
          simp only [Calculate] at hcur
          rw [Except.ok.injEq] at hcur
          subst hcur
          exact ⟨rfl, rfl, rfl, rfl⟩
      · simp only [Calculate, hsf, if_false, Bool.false_eq_true] at h
        rw [Except.ok.injEq] at h
        subst h
        refine ⟨fun _ => ⟨rfl, rfl, rfl, rfl⟩, fun prev cur hprev hpos hcur => ?_⟩
        rw [hpos] at hsf
        exact absurd rfl hsf

/-- The current block of the smoothing counterexample: 1 gwei base fee
at exactly the gas target, with no recorded priority fees. -/
def blkC2 : BlockData := ⟨100, some 1000000000, 15000000, 30000000, []⟩

/-- A previous bundle whose tiers are all zero, as used in the smoothing
counterexample. -/
def prevZero : GasEstimate :=
  ⟨1, 99, 0, ⟨0, 0, f0_99⟩, ⟨0, 0, f0_90⟩, ⟨0, 0, f0_50⟩, ⟨0, 0, f0_25⟩⟩

/-- The smoothing counterexample input: empty history and mempool, a
previous all-zero bundle, default strategy. -/
def inputC2 : CalculatorInput := ⟨1, some blkC2, [], [], some prevZero⟩

/-- The bundle Calculate produces on inputC2: default-ramp tiers
blended 10:90 with the all-zero previous bundle. -/
def c2Bundle : GasEstimate :=
  ⟨1, 100, 1000000000,
   ⟨445509000000, 447309000000, f0_99⟩,
   ⟨405090000000, 406890000000, f0_90⟩,
   ⟨225450000000, 227250000000, f0_50⟩,
   ⟨113175000000, 114975000000, f0_25⟩⟩

/-- C2 counterexample.  On inputC2 the smoothed urgent tier has
max_fee 447309000000, strictly below base_fee * 2 + max_priority_fee =
2000000000 + 445509000000 = 447509000000, refuting the claimed
inequality for smoothed bundles. -/
theorem C2_counterexample :
    Calculate DefaultStrategy inputC2 = .ok c2Bundle ∧
    c2Bundle.Urgent.MaxFeePerGas <
      add256 (mul256 c2Bundle.BaseFee 2) c2Bundle.Urgent.MaxPriorityFeePerGas := by
  constructor
  · decide
  · decide

/-- The bundle Calculate produces on inputC2 without the previous
estimate: the pure default-ramp tiers. -/
def c2Unsmoothed : GasEstimate :=
  ⟨1, 100, 1000000000,
   ⟨495010000000, 497010000000, f0_99⟩,
   ⟨450100000000, 452100000000, f0_90⟩,
   ⟨250500000000, 252500000000, f0_50⟩,
   ⟨125750000000, 127750000000, f0_25⟩⟩

/-- C2 witness: on the unsmoothed variant of inputC2 the amended
theorem yields the urgent-tier equality, instantiated concretely. -/
theorem C2_witness :
    Calculate DefaultStrategy { inputC2 with PreviousEstimate := none } =
      .ok c2Unsmoothed ∧
    c2Unsmoothed.Urgent.MaxFeePerGas =
      add256 (mul256 c2Unsmoothed.BaseFee 2) c2Unsmoothed.Urgent.MaxPriorityFeePerGas :=
  ⟨by decide,
   ((C2_maxfee_structure DefaultStrategy { inputC2 with PreviousEstimate := none }
      c2Unsmoothed (by decide)).1 (Or.inl rfl)).1⟩

/-- The overflow counterexample block: base fee 2^256 - 1 at exactly
the gas target. -/
def blkC4 : BlockData := ⟨100, some (2 ^ 256 - 1), 15000000, 30000000, []⟩

/-- The overflow counterexample input: empty history and mempool, no
previous bundle, default strategy. -/
def inputC4 : CalculatorInput := ⟨1, some blkC4, [], [], none⟩

/-- The bundle Calculate produces on inputC4: every tier's max fee has
wrapped around 2^256. -/
def c4Bundle : GasEstimate :=
  ⟨1, 100, 2 ^ 256 - 1,
   ⟨495010000000, 495009999998, f0_99⟩,
   ⟨450100000000, 450099999998, f0_90⟩,
   ⟨250500000000, 250499999998, f0_50⟩,
   ⟨125750000000, 125749999998, f0_25⟩⟩

/-- C4 counterexample.  With base fee 2^256 - 1 the urgent max-fee
computation base_fee * 2 + priority exceeds 2^256 - 1, yet Calculate
returns a bundle (no error of any kind) whose urgent max_fee is the
wrapped value 495009999998, refuting the claim that such additions are
reported as errors and never published wrapped. -/
theorem C4_counterexample :
    Calculate DefaultStrategy inputC4 = .ok c4Bundle ∧
    c4Bundle.Urgent.MaxFeePerGas = 495009999998 ∧
    2 ^ 256 ≤ c4Bundle.BaseFee * 2 + c4Bundle.Urgent.MaxPriorityFeePerGas := by
  refine ⟨by decide, by decide, by decide⟩

/-- C4 (amended).  Calculate never reports arithmetic overflow: it
succeeds exactly when a current block is present (its only error is
NotReady), and in the unsmoothed path every published urgent max fee is
the wrapped value (base_fee * 2 mod 2^256 + priority) mod 2^256, silent
truncation included. -/
theorem C4_overflow_silent (s : HybridStrategy) (input : CalculatorInput) :
    exceptOk (Calculate s input) = input.CurrentBlock.isSome ∧
    (∀ est, input.PreviousEstimate = none → Calculate s input = .ok est →
      est.Urgent.MaxFeePerGas =
        (est.BaseFee * 2 % 2 ^ 256 + est.Urgent.MaxPriorityFeePerGas) % 2 ^ 256) := by
  obtain ⟨cid, cb, recents, pends, prevEst⟩ := input
  constructor
  · cases cb with
    | none => rfl
    | some b =>
      cases prevEst with
      | none => rfl
      | some prev0 =>
        simp only [Calculate, exceptOk]
        split_ifs <;> rfl
  · intro est hprev h
    simp only at hprev
    subst hprev
    cases cb with
    | none => simp [Calculate] at h
    | some b =>
      simp only [Calculate] at h
      rw [Except.ok.injEq] at h
      subst h
      rfl

/-- C4 witness: the amended theorem instantiated at the concrete
overflow input. -/
theorem C4_witness :
    exceptOk (Calculate DefaultStrategy inputC4) = inputC4.CurrentBlock.isSome ∧
    c4Bundle.Urgent.MaxFeePerGas =
      (c4Bundle.BaseFee * 2 % 2 ^ 256 + c4Bundle.Urgent.MaxPriorityFeePerGas) % 2 ^ 256 :=
  ⟨(C4_overflow_silent DefaultStrategy inputC4).1,
   (C4_overflow_silent DefaultStrategy inputC4).2 c4Bundle rfl (by decide)⟩

/-! ### estimator.Estimator: bootstrap, input building, pending-tx ingest -/

/-- Estimator.convertBlock (src/pkg/estimator/calculator_test.go, lines
867-885): copy the gas fields and precompute the per-block priority-fee
vector as the nonzero effective priority fees of the included
transactions against the block's own base fee. -/
def convertBlock (block : Block) : BlockData :=
  { Number := block.Number
    BaseFee := block.BaseFee
    GasUsed := block.GasUsed
    GasLimit := block.GasLimit
    PriorityFees :=
      (block.Transactions.map fun tx =>
        tx.EffectivePriorityFee block.BaseFee).filter fun fee => fee ≠ 0 }

/-- The bootstrap fetch loop (calculator_test.go, lines 759-770),
with the early exit of the Go loop condition latest.Number > uint64(i)
modelled exactly: each successful fetch is pushed, failures are skipped,
and the loop stops at the first index not below the latest number. -/
def bootstrapLoop (latestNumber : ℕ) (fetch : ℕ → Option Block) :
    List ℕ → History → History
  | [], h => h
  | i :: rest, h =>
    if i < latestNumber then
      match fetch (latestNumber - i) with
      | some block => bootstrapLoop latestNumber fetch rest (h.Push block)
      | none => bootstrapLoop latestNumber fetch rest h
    else h

/-- The history produced by the bootstrap fetch loop over indices
0 .. historySize - 1. -/
def bootstrapHistory (historySize latestNumber : ℕ) (fetch : ℕ → Option Block) :
    History :=
  bootstrapLoop latestNumber fetch (List.range historySize) (NewHistory historySize)

/-- Estimator.bootstrap (calculator_test.go, lines 750-778): an error is
returned exactly when the latest-block fetch fails; per-block fetch
failures are logged warnings that never abort the bootstrap. -/
def bootstrapResult (historySize : ℕ) (latest : Option Block)
    (fetch : ℕ → Option Block) : Except String History :=
  match latest with
  | none => .error "getting latest block"
  | some latestBlock => .ok (bootstrapHistory historySize latestBlock.Number fetch)

/-- The startup sequence of Estimator.Run (calculator_test.go, lines
688-699): a failed chain-ID fetch aborts, then bootstrap runs. -/
def runStartup (chainID : Option ℕ) (historySize : ℕ) (latest : Option Block)
    (fetch : ℕ → Option Block) : Except String History :=
  match chainID with
  | none => .error "getting chain ID"
  | some _ => bootstrapResult historySize latest fetch

/-- C5 (amended).  The startup sequence fails if and only if the
chain-ID fetch fails or the latest-block fetch fails.  Per-block
bootstrap fetch failures never terminate the loop - not even when every
per-block fetch fails and the history stays empty. -/
theorem C5_startup_failure_iff (chainID : Option ℕ) (n : ℕ) (latest : Option Block)
    (fetch : ℕ → Option Block) :
    exceptOk (runStartup chainID n latest fetch) =
      (chainID.isSome && latest.isSome) := by
  rcases chainID with _ | cid <;> rcases latest with _ | lb <;> rfl

/-- C5 counterexample.  With the chain-ID and latest-block fetches
succeeding but every per-block fetch failing, the claim requires
bootstrap to fail; the code instead returns success with an empty
history. -/
theorem C5_counterexample :
    runStartup (some 1) 2 (some ⟨10, some 1000000000, 0, 30000000, []⟩)
      (fun _ => none) = .ok (NewHistory 2) ∧
    (NewHistory 2).count = 0 := by
  exact ⟨rfl, rfl⟩

/-- LocalTxPool.Add as reached through the pointer it receives: the Go
method immediately calls tx.IsEIP1559(), which dereferences the
transaction pointer, so a nil argument is a runtime fault (modelled as
none). -/
def LocalTxPool.AddPtr (p : LocalTxPool) (tx : Option Transaction) :
    Option LocalTxPool :=
  match tx with
  | none => none
  | some t => some (p.Add t)

/-- Estimator.processPendingTx (calculator_test.go, lines 897-909): a
fetch error is silently ignored; a successful fetch is passed straight
to LocalTxPool.Add with no nil check, although the facade contract
allows transaction_by_hash to return null for a transaction that is no
longer known.  (The sibling batched path fetchAndAddTxs, lines 536-550,
does guard with a nil check before Add.) -/
def processPendingTx (p : LocalTxPool) (fetched : Except String (Option Transaction)) :
    Option LocalTxPool :=
  match fetched with
  | .error _ => some p
  | .ok tx => p.AddPtr tx

/-- C6.  Ingesting a null transaction_by_hash result through
processPendingTx faults (nil-pointer dereference inside
LocalTxPool.Add), contradicting the claim that the engine never panics
on external input; an RPC error, by contrast, is tolerated. -/
theorem C6_nil_transaction_fault :
    processPendingTx (NewLocalTxPool 1000) (.ok none) = none ∧
    processPendingTx (NewLocalTxPool 1000) (.error "fetch failed") =
      some (NewLocalTxPool 1000) :=
  ⟨rfl, rfl⟩

/-- Dereference every pointer of a Go pointer slice: none (a nil entry,
which the conversion loop would fault on) poisons the result. -/
def derefAll {α : Type} : List (Option α) → Option (List α)
  | [] => some []
  | none :: _ => none
  | some x :: rest => (derefAll rest).map fun ys => x :: ys

/-- Estimator.buildInput (calculator_test.go, lines 837-865): an empty
snapshot is an error (none); otherwise every snapshot entry is
converted with convertBlock and the current block is element 0 of the
newest-first snapshot. -/
def buildInput (chainID : ℕ) (history : History) (pool : LocalTxPool)
    (prev : Option GasEstimate) : Option CalculatorInput :=
  if history.Snapshot.length = 0 then none
  else
    (derefAll history.Snapshot).map fun bs =>
      { ChainID := chainID
        CurrentBlock := (bs.map convertBlock).head?
        RecentBlocks := bs.map convertBlock
        PendingTxs := pool.Snapshot
        PreviousEstimate := prev }

/-- Dereferencing a slice of non-nil pointers yields the pointed-to
values. -/
theorem derefAll_map_some {α : Type} (l : List α) :
    derefAll (l.map some) = some l := by
  induction l with
  | nil => rfl
  | cons x xs ih => simp [derefAll, ih]

/-- When no fetch fails and every index is below the latest number, the
bootstrap loop is exactly a sequence of pushes of the fetched blocks. -/
theorem bootstrapLoop_pushAll (L : ℕ) (fetch : ℕ → Option Block) (l : List ℕ)
    (h : History) (hall : ∀ i ∈ l, i < L ∧ (fetch (L - i)).isSome) :
    bootstrapLoop L fetch l h =
      History.pushAll h (l.map fun i => (fetch (L - i)).getD default) := by
  induction l generalizing h with
  | nil => rfl
  | cons i tl ih =>
    obtain ⟨hiL, hisome⟩ := hall i (List.mem_cons_self i tl)
    obtain ⟨b, hb⟩ := Option.isSome_iff_exists.mp hisome
    simp only [bootstrapLoop, List.map_cons, if_pos hiL, hb]
    exact ih (h.Push b) fun j hj => hall j (List.mem_cons_of_mem i hj)

/-- C10.  After a bootstrap in which the latest block has number L at
least the history size n and every per-block fetch succeeds, the input
built for the first recomputation has as its current block the
conversion of the block fetched for number L - (n - 1) - the oldest
fetched block, not the chain head - because bootstrap pushes in
descending number order and buildInput takes element 0 of the
newest-pushed-first snapshot. -/
theorem C10_first_input_current_block (n L : ℕ) (fetch : ℕ → Option Block)
    (chainID : ℕ) (pool : LocalTxPool) (prev : Option GasEstimate)
    (hn : 1 ≤ n) (hL : n ≤ L)
    (hfetch : ∀ i, i < n → (fetch (L - i)).isSome) :
    (buildInput chainID (bootstrapHistory n L fetch) pool prev).map
      CalculatorInput.CurrentBlock =
      some (Option.map convertBlock (fetch (L - (n - 1)))) := by
  have hboot : bootstrapHistory n L fetch =
      History.pushAll (NewHistory n)
        ((List.range n).map fun i => (fetch (L - i)).getD default) := by
    apply bootstrapLoop_pushAll
    intro i hi
    rw [List.mem_range] at hi
    exact ⟨by omega, hfetch i hi⟩
  set xs : List Block := (List.range n).map fun i => (fetch (L - i)).getD default
    with hxs
  have hlen : xs.length = n := by simp [hxs]
  have hsnap := (History.snapshot_pushAll n hn xs).1
  have hdrop : xs.drop (xs.length - n) = xs := by
    rw [hlen, Nat.sub_self, List.drop_zero]
  rw [hboot, buildInput, hsnap, hdrop]
  rw [if_neg (by simp [hlen]; omega)]
  rw [derefAll_map_some]
  rw [Option.map_some', Option.map_some']
  congr 1
  show (xs.reverse.map convertBlock).head? = _
  rw [List.head?_map]
  have hrev : xs.reverse.head? = xs[n - 1]? := by
    rw [List.head?_eq_getElem?, List.getElem?_reverse (by omega), hlen, Nat.sub_zero]
  rw [hrev]
  have hx : xs[n - 1]? = some ((fetch (L - (n - 1))).getD default) := by
    rw [hxs, List.getElem?_map, List.getElem?_range (by omega)]
    rfl
  rw [hx]
  obtain ⟨b, hb⟩ := Option.isSome_iff_exists.mp (hfetch (n - 1) (by omega))
  rw [hb]
  rfl

/-- C10 witness: history size 3, latest block 10, all fetches
succeeding with blocks numbered as requested - the first input's
current block is block 8, the oldest fetched, not block 10. -/
theorem C10_witness :
    (buildInput 1 (bootstrapHistory 3 10 fun m => some ⟨m, none, 0, 0, []⟩)
      (NewLocalTxPool 3) none).map CalculatorInput.CurrentBlock =
      some (some (convertBlock ⟨8, none, 0, 0, []⟩)) :=
  (C10_first_input_current_block 3 10 (fun m => some ⟨m, none, 0, 0, []⟩) 1
    (NewLocalTxPool 3) none (by decide) (by decide) (fun i _ => rfl)).trans rfl

end GoGas
